import Mathlib

/-!
Shallow embedding of `src/05-objects-tasks.js` (core-js-101): the `Rectangle`
constructor, the JSON helpers `getJSON` / `fromJSON`, and the CSS selector
builder (`SelectorBuilder` class plus the `cssSelectorBuilder` facade).

JavaScript strings become `String`, arrays become `List`, numbers appearing in
the claims are integers and become `Int`, thrown exceptions become an
`Option String` (the error message) threaded next to the mutated state, and
in-place mutation of an object becomes explicit state passing: each builder
method returns the builder state after the call together with the error, so
that the state at the moment a throw happens is observable.
-/

namespace CoreJs

/-!
Selector fragment kinds.  The source stores kinds as the strings
`'el', 'id', 'class', 'attr', 'pseudoClass', 'pseudoEl'`; we embed them as an
enumerated type with the same names.
-/

inductive Kind where
  | el
  | id
  | «class»
  | attr
  | pseudoClass
  | pseudoEl
deriving DecidableEq, Repr, Fintype

/-- Source: `const order = ['el', 'id', 'class', 'attr', 'pseudoClass', 'pseudoEl'];` -/
def order : List Kind := [.el, .id, .«class», .attr, .pseudoClass, .pseudoEl]

/-- Source: `const oneTimeSelectors = ['el', 'id', 'pseudoEl'];` -/
def oneTimeSelectors : List Kind := [.el, .id, .pseudoEl]

/-- Source: `const error1 = '...'` — the singleton-violation message thrown by `process`. -/
def error1 : String :=
  "Element, id and pseudo-element should not occur more then one time inside the selector"

/-- Source: `const error2 = '...'` — the ordering-violation message thrown by `process`. -/
def error2 : String :=
  "Selector parts should be arranged in the following order: element, id, class, attribute, pseudo-class, pseudo-element"

/-- Value of `order.indexOf(x)` where `x` is
`this.usedSelectors[this.usedSelectors.length - 1]`, which is `undefined`
(hence index `-1`) when the array is empty.  Every `Kind` occurs in `order`,
so on a present kind this is its position. -/
def idxOpt : Option Kind → Int
  | none => -1
  | some k => (order.indexOf k : Int)

/-- Rank of a kind: its position in `order`. -/
def rank (k : Kind) : Nat := order.indexOf k

/-- State of the `SelectorBuilder` class: `this.usedSelectors` and `this.str`,
initialised by the constructor to `[]` and `''`. -/
structure SelectorBuilder where
  usedSelectors : List Kind
  str : String
deriving DecidableEq, Repr

/-- Constructor call `new SelectorBuilder()`. -/
def SelectorBuilder.new : SelectorBuilder := ⟨[], ""⟩

/-- Value of `this.usedSelectors[this.usedSelectors.length - 1]` — `none` for
an empty array, mirroring JavaScript's `undefined`. -/
def SelectorBuilder.lastSel (b : SelectorBuilder) : Option Kind :=
  b.usedSelectors.getLast?

/-- Method `process(selector)`: throw `error1` on an adjacent repeat of a
one-time selector, throw `error2` on an order violation, otherwise push the
kind.  The returned builder is the state after the call (unchanged on a
throw, since the `push` only runs when neither condition fires). -/
def SelectorBuilder.process (b : SelectorBuilder) (selector : Kind) :
    SelectorBuilder × Option String :=
  if b.lastSel = some selector ∧ selector ∈ oneTimeSelectors then
    (b, some error1)
  else if idxOpt b.lastSel > idxOpt (some selector) then
    (b, some error2)
  else
    ({ b with usedSelectors := b.usedSelectors ++ [selector] }, none)

/-- Method `element(value) { this.process('el'); this.str += value; return this; }` -/
def SelectorBuilder.element (b : SelectorBuilder) (value : String) :
    SelectorBuilder × Option String :=
  match b.process .el with
  | (b1, some e) => (b1, some e)
  | (b1, none) => ({ b1 with str := b1.str ++ value }, none)

/-- Method `id(value)`, appending `` `#${value}` ``. -/
def SelectorBuilder.id (b : SelectorBuilder) (value : String) :
    SelectorBuilder × Option String :=
  match b.process .id with
  | (b1, some e) => (b1, some e)
  | (b1, none) => ({ b1 with str := b1.str ++ ("#" ++ value) }, none)

/-- Method `class(value)`, appending `` `.${value}` ``. -/
def SelectorBuilder.«class» (b : SelectorBuilder) (value : String) :
    SelectorBuilder × Option String :=
  match b.process .«class» with
  | (b1, some e) => (b1, some e)
  | (b1, none) => ({ b1 with str := b1.str ++ ("." ++ value) }, none)

/-- Method `attr(value)`, appending `` `[${value}]` ``. -/
def SelectorBuilder.attr (b : SelectorBuilder) (value : String) :
    SelectorBuilder × Option String :=
  match b.process .attr with
  | (b1, some e) => (b1, some e)
  | (b1, none) => ({ b1 with str := b1.str ++ ("[" ++ value ++ "]") }, none)

/-- Method `pseudoClass(value)`, appending `` `:${value}` ``. -/
def SelectorBuilder.pseudoClass (b : SelectorBuilder) (value : String) :
    SelectorBuilder × Option String :=
  match b.process .pseudoClass with
  | (b1, some e) => (b1, some e)
  | (b1, none) => ({ b1 with str := b1.str ++ (":" ++ value) }, none)

/-- Method `pseudoElement(value)`, appending `` `::${value}` ``. -/
def SelectorBuilder.pseudoElement (b : SelectorBuilder) (value : String) :
    SelectorBuilder × Option String :=
  match b.process .pseudoEl with
  | (b1, some e) => (b1, some e)
  | (b1, none) => ({ b1 with str := b1.str ++ ("::" ++ value) }, none)

/-- Method `stringify() { return this.str; }` -/
def SelectorBuilder.stringify (b : SelectorBuilder) : String := b.str

/-- Dispatch a fragment append to the method of the given kind. -/
def appendFragment (b : SelectorBuilder) : Kind → String → SelectorBuilder × Option String
  | .el, v => b.element v
  | .id, v => b.id v
  | .«class», v => b.«class» v
  | .attr, v => b.attr v
  | .pseudoClass, v => b.pseudoClass v
  | .pseudoEl, v => b.pseudoElement v

/-- Run a fluent chain of fragment appends; a throw aborts the chain, as a
JavaScript exception would propagate out of the method chain. -/
def runChain : SelectorBuilder → List (Kind × String) → SelectorBuilder × Option String
  | b, [] => (b, none)
  | b, (k, v) :: rest =>
    match appendFragment b k v with
    | (b1, none) => runChain b1 rest
    | (b1, some e) => (b1, some e)

/-- Rendered form each method concatenates onto `this.str`. -/
def renderFrag : Kind → String → String
  | .el, v => v
  | .id, v => "#" ++ v
  | .«class», v => "." ++ v
  | .attr, v => "[" ++ v ++ "]"
  | .pseudoClass, v => ":" ++ v
  | .pseudoEl, v => "::" ++ v

/-- Concatenation, in order and with no separators, of the rendered forms of a
chain of fragments. -/
def renderAll : List (Kind × String) → String
  | [] => ""
  | (k, v) :: rest => renderFrag k v ++ renderAll rest

/-!
The `cssSelectorBuilder` facade.  The fragment entry points each build a fresh
`SelectorBuilder`.  `combine`, however, is a method of the facade object
literal itself: it assigns `this.str` on that shared object and returns
`this`.  We model the facade's mutable `str` field (absent until the first
`combine`) as an optional string, and a selector value as either an
independent builder or a reference to the facade.
-/

structure FacadeState where
  str : Option String
deriving DecidableEq, Repr

/-- The facade object before any `combine` call: no `str` field yet. -/
def FacadeState.init : FacadeState := ⟨none⟩

inductive Sel where
  | builder (b : SelectorBuilder)
  | facade
deriving DecidableEq, Repr

/-- Value of `sel.str` as read inside the template literal of `combine`: a
builder's own string, or the facade's current `str`, where an absent field
(`undefined`) is rendered by the template literal as the text `undefined`. -/
def selStr (w : FacadeState) : Sel → String
  | .builder b => b.str
  | .facade => match w.str with
    | some s => s
    | none => "undefined"

/-- Method `combine(sel1, combin, sel2)` of the facade object:
`this.str = ` `` `${sel1.str} ${combin} ${sel2.str}` `` `; return this;` —
it writes the facade's own `str` and returns the facade itself. -/
def combine (w : FacadeState) (sel1 : Sel) (combin : String) (sel2 : Sel) :
    Sel × FacadeState :=
  (Sel.facade, ⟨some (selStr w sel1 ++ " " ++ combin ++ " " ++ selStr w sel2)⟩)

/-- Method `stringify()` on a selector value: a builder always has a string;
the facade yields its optional `str` (`none` = `undefined`). -/
def stringifySel (w : FacadeState) : Sel → Option String
  | .builder b => some b.str
  | .facade => w.str

/-- Facade entry `element: (value) => new SelectorBuilder().element(value)`. -/
def cssElement (value : String) : SelectorBuilder × Option String :=
  SelectorBuilder.new.element value

/-- Facade entry `id: (value) => new SelectorBuilder().id(value)`. -/
def cssId (value : String) : SelectorBuilder × Option String :=
  SelectorBuilder.new.id value

/-- Facade entry `class: (value) => new SelectorBuilder().class(value)`. -/
def cssClass (value : String) : SelectorBuilder × Option String :=
  SelectorBuilder.new.«class» value

/-- Facade entry `attr: (value) => new SelectorBuilder().attr(value)`. -/
def cssAttr (value : String) : SelectorBuilder × Option String :=
  SelectorBuilder.new.attr value

/-- Facade entry `pseudoClass: (value) => new SelectorBuilder().pseudoClass(value)`. -/
def cssPseudoClass (value : String) : SelectorBuilder × Option String :=
  SelectorBuilder.new.pseudoClass value

/-- Facade entry `pseudoElement: (value) => new SelectorBuilder().pseudoElement(value)`. -/
def cssPseudoElement (value : String) : SelectorBuilder × Option String :=
  SelectorBuilder.new.pseudoElement value

/-!
The `Rectangle` constructor: `function Rectangle(width, height)` sets
`this.width`, `this.height`, and a `getArea` closure that reads the current
fields on every call; mutation of a field is record update.
-/

structure Rectangle where
  width : Int
  height : Int
deriving DecidableEq, Repr

/-- Closure `this.getArea = () => this.width * this.height;` — reads the
fields at call time, so it sees any mutation made after construction. -/
def Rectangle.getArea (r : Rectangle) : Int := r.width * r.height

/-!
The JSON helpers.  Source:
`function getJSON(obj) { return JSON.stringify(obj); }` and
`function fromJSON(proto, json) { const res = JSON.parse(json);
Object.setPrototypeOf(res, proto); return res; }`.
The claims exercise them on plain flat data objects, which we model as
ordered association lists from string keys to integer values; the
`JSON.stringify` / `JSON.parse` builtins are modelled character by character
on that sublanguage (keys that need no escaping, decimal integer values).
-/

/-- Decimal digits of `n`, most significant first; `fuel` bounds the
recursion and any `fuel > n` is enough. -/
def natDigitsAux : Nat → Nat → List Char
  | 0, _ => []
  | f + 1, n =>
    if n < 10 then [Char.ofNat (48 + n)]
    else natDigitsAux f (n / 10) ++ [Char.ofNat (48 + n % 10)]

/-- Decimal digits of `n`, most significant first. -/
def natDigits (n : Nat) : List Char := natDigitsAux (n + 1) n

/-- Characters a JavaScript number prints as, for an integer value. -/
def intChars (i : Int) : List Char :=
  if i < 0 then '-' :: natDigits i.natAbs else natDigits i.natAbs

/-- Characters `JSON.stringify` emits for one `"key":value` field. -/
def fieldChars (p : String × Int) : List Char :=
  '"' :: (p.1.data ++ ('"' :: ':' :: intChars p.2))

/-- Characters `JSON.stringify` emits for a comma-separated field list. -/
def fieldsChars : List (String × Int) → List Char
  | [] => []
  | [p] => fieldChars p
  | p :: q :: t => fieldChars p ++ (',' :: fieldsChars (q :: t))

/-- Models `getJSON`, i.e. `JSON.stringify`, on a flat object with integer
fields (key order = insertion order). -/
def getJSON (fields : List (String × Int)) : String :=
  String.mk ('{' :: (fieldsChars fields ++ ['}']))

/-- Greedily consume leading decimal digits, accumulating their value. -/
def readDigitsAux : List Char → Nat → Nat × List Char
  | [], acc => (acc, [])
  | c :: t, acc =>
    if c.isDigit then readDigitsAux t (acc * 10 + (c.toNat - 48)) else (acc, c :: t)

/-- Read a non-empty run of decimal digits. -/
def readDigits : List Char → Option (Nat × List Char)
  | [] => none
  | c :: t => if c.isDigit then some (readDigitsAux (c :: t) 0) else none

/-- Read an optionally negated decimal integer. -/
def readInt (cs : List Char) : Option (Int × List Char) :=
  if cs.head? = some '-' then
    (readDigits cs.tail).bind fun nr => some (-(nr.1 : Int), nr.2)
  else
    (readDigits cs).bind fun nr => some ((nr.1 : Int), nr.2)

/-- Read the body of a string literal up to its closing quote (escape-free
keys only). -/
def readStrBody : List Char → Option (List Char × List Char)
  | [] => none
  | c :: t =>
    if c = '"' then some ([], t)
    else
      match readStrBody t with
      | some sr => some (c :: sr.1, sr.2)
      | none => none

/-- Expect one given character. -/
def expectChar (c : Char) : List Char → Option (List Char)
  | [] => none
  | x :: t => if x = c then some t else none

/-- Parse one `"key":value` field. -/
def parseField (cs : List Char) : Option ((String × Int) × List Char) :=
  (expectChar '"' cs).bind fun t =>
  (readStrBody t).bind fun kr =>
  (expectChar ':' kr.2).bind fun r2 =>
  (readInt r2).bind fun vr =>
  some ((String.mk kr.1, vr.1), vr.2)

/-- Parse a comma-separated non-empty field list; `fuel` bounds the number of
fields and the character count is always enough. -/
def parseFieldsAux : Nat → List Char → Option (List (String × Int) × List Char)
  | 0, _ => none
  | f + 1, cs =>
    (parseField cs).bind fun pr =>
      if pr.2.head? = some ',' then
        (parseFieldsAux f pr.2.tail).bind fun fsr => some (pr.1 :: fsr.1, fsr.2)
      else some ([pr.1], pr.2)

/-- Models `JSON.parse` on the sublanguage `getJSON` emits: a brace-wrapped
flat object with integer fields; anything else fails (a thrown `SyntaxError`
becomes `none`). -/
def parseFlat (s : String) : Option (List (String × Int)) :=
  if s.data.head? = some '{' then
    if s.data.tail = ['}'] then some []
    else
      (parseFieldsAux s.data.tail.length s.data.tail).bind fun fsr =>
        if fsr.2 = ['}'] then some fsr.1 else none
  else none

/-- A parsed plain value with a prototype attached: `fields` are its own
properties, `proto` is the shape template attached by reference. -/
structure JSObject (π : Type) where
  fields : List (String × Int)
  proto : π

/-- Models `fromJSON`: parse the text into a plain value, then
`Object.setPrototypeOf` it to `proto`, copying and validating nothing. -/
def fromJSON {π : Type} (proto : π) (json : String) : Option (JSObject π) :=
  (parseFlat json).map fun fs => ⟨fs, proto⟩

/-- Field read on a parsed object (`this.height` and so on); a missing field
defaults to `0` where JavaScript would give `undefined`. -/
def getField (fs : List (String × Int)) (k : String) : Int :=
  (fs.lookup k).getD 0

/-- A prototype carrying one `area` method reading
`this.height * this.width`, as in the spec's round-trip example. -/
def protoWithArea : List (String × Int) → Int :=
  fun fs => getField fs "height" * getField fs "width"

/-- A key `JSON.stringify` emits verbatim: no quote, no backslash, no
control character needing an escape. -/
def validKeyChar (c : Char) : Prop := c ≠ '"' ∧ c ≠ '\\' ∧ 32 ≤ c.toNat

instance (c : Char) : Decidable (validKeyChar c) :=
  inferInstanceAs (Decidable (_ ∧ _ ∧ _))

/-- All characters of the key are emitted verbatim by `JSON.stringify`. -/
def validKey (s : String) : Prop := ∀ c ∈ s.data, validKeyChar c

instance (s : String) : Decidable (validKey s) :=
  inferInstanceAs (Decidable (∀ c ∈ s.data, validKeyChar c))

/-- True when the list does not start with a digit, so a greedy digit read
stops exactly there. -/
def headNonDigit : List Char → Bool
  | [] => true
  | c :: _ => !c.isDigit

/-!
Relations on kinds used to state the validation claims.
-/

/-- Ranks are non-decreasing between two adjacent kinds. -/
def rankLe (a c : Kind) : Prop := rank a ≤ rank c

/-- No adjacent repeat of a one-time (singleton) kind. -/
def noAdjSingleton (a c : Kind) : Prop := ¬(a = c ∧ c ∈ oneTimeSelectors)

/-- Both validation rules hold between two adjacent kinds. -/
def stepOK (a c : Kind) : Prop := rankLe a c ∧ noAdjSingleton a c

instance : DecidableRel rankLe :=
  fun a c => inferInstanceAs (Decidable (rank a ≤ rank c))

instance : DecidableRel noAdjSingleton :=
  fun a c => inferInstanceAs (Decidable (¬(a = c ∧ c ∈ oneTimeSelectors)))

instance : DecidableRel stepOK :=
  fun a c => inferInstanceAs (Decidable (rankLe a c ∧ noAdjSingleton a c))

instance : IsTrans Kind rankLe := ⟨fun _ _ _ h1 h2 => Nat.le_trans h1 h2⟩

/-- A `Chain'` decision procedure that the kernel can evaluate (the library
instance is stated via `Eq.rec` and gets stuck under `decide`). -/
instance (priority := 1001) decidableChainRel {α : Type} (R : α → α → Prop)
    [DecidableRel R] : ∀ l : List α, Decidable (List.Chain' R l)
  | [] => isTrue List.chain'_nil
  | [a] => isTrue (List.chain'_singleton a)
  | a :: b :: t =>
      have : Decidable (List.Chain' R (b :: t)) := decidableChainRel R (b :: t)
      decidable_of_iff (R a b ∧ List.Chain' R (b :: t)) List.chain'_cons.symm

theorem idxOpt_some (k : Kind) : idxOpt (some k) = (rank k : Int) := rfl

theorem rank_inj : ∀ a b : Kind, rank a = rank b → a = b := by decide

theorem not_idx_gt_iff (a c : Kind) :
    ¬(idxOpt (some a) > idxOpt (some c)) ↔ rankLe a c := by
  rw [gt_iff_lt, not_lt, idxOpt_some, idxOpt_some, Nat.cast_le]
  exact Iff.rfl

/-- The six fragment methods share one shape: validate via `process`, then
append the kind's rendered form. -/
theorem appendFragment_eq (b : SelectorBuilder) (k : Kind) (v : String) :
    appendFragment b k v =
      if b.lastSel = some k ∧ k ∈ oneTimeSelectors then (b, some error1)
      else if idxOpt b.lastSel > idxOpt (some k) then (b, some error2)
      else ({ b with
              usedSelectors := b.usedSelectors ++ [k],
              str := b.str ++ renderFrag k v }, none) := by
  cases k <;>
    simp only [appendFragment, SelectorBuilder.element, SelectorBuilder.id,
      SelectorBuilder.«class», SelectorBuilder.attr, SelectorBuilder.pseudoClass,
      SelectorBuilder.pseudoElement, SelectorBuilder.process, renderFrag] <;>
    split_ifs <;> rfl

theorem appendFragment_success (b : SelectorBuilder) (k : Kind) (v : String)
    (h1 : ¬(b.lastSel = some k ∧ k ∈ oneTimeSelectors))
    (h2 : ¬(idxOpt b.lastSel > idxOpt (some k))) :
    appendFragment b k v =
      ({ b with
         usedSelectors := b.usedSelectors ++ [k],
         str := b.str ++ renderFrag k v }, none) := by
  rw [appendFragment_eq, if_neg h1, if_neg h2]

theorem chain'_and {α : Type} {R S : α → α → Prop} :
    ∀ {l : List α}, List.Chain' R l → List.Chain' S l →
      List.Chain' (fun a b => R a b ∧ S a b) l
  | [], _, _ => List.chain'_nil
  | [_], _, _ => List.chain'_singleton _
  | _ :: _ :: _, hr, hs =>
      List.chain'_cons.mpr ⟨⟨(List.chain'_cons.mp hr).1, (List.chain'_cons.mp hs).1⟩,
        chain'_and (List.chain'_cons.mp hr).2 (List.chain'_cons.mp hs).2⟩

/-- Running a chain whose kinds extend the builder's recorded kinds while
respecting both validation rules never throws, records exactly the appended
kinds, and appends exactly the rendered forms. -/
theorem runChain_ok (l : List (Kind × String)) : ∀ b : SelectorBuilder,
    List.Chain' stepOK (b.usedSelectors ++ l.map Prod.fst) →
    runChain b l =
      ({ usedSelectors := b.usedSelectors ++ l.map Prod.fst,
         str := b.str ++ renderAll l }, none) := by
  induction l with
  | nil =>
      intro b _
      simp only [runChain, List.map_nil, List.append_nil, renderAll, String.append_empty]
  | cons p rest ih =>
      obtain ⟨k, v⟩ := p
      intro b h
      simp only [List.map_cons] at h
      obtain ⟨h1, h2, h3⟩ := List.chain'_append.mp h
      have hc1 : ¬(b.lastSel = some k ∧ k ∈ oneTimeSelectors) := by
        rintro ⟨hl, hmem⟩
        exact (h3 k hl k rfl).2 ⟨rfl, hmem⟩
      have hc2 : ¬(idxOpt b.lastSel > idxOpt (some k)) := by
        cases hls : b.lastSel with
        | none =>
            have hnn : (0 : Int) ≤ idxOpt (some k) := by
              rw [idxOpt_some]; exact Int.natCast_nonneg _
            have hneg : idxOpt none = -1 := rfl
            omega
        | some a =>
            exact (not_idx_gt_iff a k).mpr (h3 a hls k rfl).1
      have hstep := appendFragment_success b k v hc1 hc2
      simp only [runChain, hstep]
      have hch2 : List.Chain' stepOK
          ((b.usedSelectors ++ [k]) ++ rest.map Prod.fst) := by
        rw [← List.append_cons]
        exact h
      rw [ih { b with
               usedSelectors := b.usedSelectors ++ [k],
               str := b.str ++ renderFrag k v } hch2]
      simp only [renderAll, String.append_assoc, ← List.append_cons, List.map_cons]

/-- Successful appends preserve the adjacency invariant on recorded kinds. -/
theorem runChain_inv (l : List (Kind × String)) : ∀ b : SelectorBuilder,
    List.Chain' stepOK b.usedSelectors → (runChain b l).2 = none →
    List.Chain' stepOK (runChain b l).1.usedSelectors := by
  induction l with
  | nil => intro b hb _; simpa [runChain] using hb
  | cons p rest ih =>
      obtain ⟨k, v⟩ := p
      intro b hb hnone
      rcases happ : appendFragment b k v with ⟨b1, e⟩
      cases e with
      | some err =>
          simp only [runChain, happ] at hnone
          exact Option.noConfusion hnone
      | none =>
          have happEq := happ
          rw [appendFragment_eq] at happ
          split_ifs at happ with hcc1 hcc2
          · exact absurd (congrArg Prod.snd happ) (by simp)
          · exact absurd (congrArg Prod.snd happ) (by simp)
          · have hb1 : ({ b with
                usedSelectors := b.usedSelectors ++ [k],
                str := b.str ++ renderFrag k v } : SelectorBuilder) = b1 :=
              congrArg Prod.fst happ
            have hch1 : List.Chain' stepOK (b.usedSelectors ++ [k]) := by
              refine List.chain'_append.mpr ⟨hb, List.chain'_singleton _, ?_⟩
              intro x hx y hy
              have hyk : k = y := by simpa using hy
              subst hyk
              have hlx : b.lastSel = some x := hx
              constructor
              · exact (not_idx_gt_iff x k).mp (hlx ▸ hcc2)
              · rintro ⟨hxy, hmem⟩
                exact hcc1 ⟨by rw [hlx, hxy], hmem⟩
            subst hb1
            simp only [runChain, happEq] at hnone ⊢
            exact ih _ hch1 hnone

theorem chain'_stepOK_pairwise {l : List Kind} (h : List.Chain' stepOK l) :
    List.Pairwise rankLe l :=
  List.chain'_iff_pairwise.mp (List.Chain'.imp (fun _ _ hab => hab.1) h)

/-- In a rank-sorted kind list with no adjacent repeat of a one-time kind, a
one-time kind occurs at most once, even non-adjacently: any two occurrences
would force everything between them to have the same rank, hence be the same
kind, hence be adjacent repeats. -/
theorem count_singleton_le_one : ∀ l : List Kind, List.Pairwise rankLe l →
    List.Chain' stepOK l → ∀ k ∈ oneTimeSelectors, l.count k ≤ 1 := by
  intro l
  induction l with
  | nil => intro _ _ k _; simp
  | cons a t ih =>
      intro hp hc k hk
      by_cases hak : a = k
      · subst hak
        rw [List.count_cons_self]
        have hnot : a ∉ t := by
          intro hmem
          cases t with
          | nil => simp at hmem
          | cons b t2 =>
              have hstep : stepOK a b := (List.chain'_cons.mp hc).1
              by_cases hba : b = a
              · exact hstep.2 ⟨hba.symm, hba ▸ hk⟩
              · have hmem2 : a ∈ t2 := by
                  rcases List.mem_cons.mp hmem with h | h
                  · exact absurd h.symm hba
                  · exact h
                have hab : rankLe a b :=
                  (List.pairwise_cons.mp hp).1 b (List.mem_cons_self b t2)
                have hba2 : rankLe b a :=
                  (List.pairwise_cons.mp (List.pairwise_cons.mp hp).2).1 a hmem2
                exact hba (rank_inj b a (Nat.le_antisymm hba2 hab))
        rw [List.count_eq_zero.mpr hnot]
      · rw [List.count_cons_of_ne (fun h => hak h.symm)]
        exact ih hp.of_cons hc.tail k hk

/-!
Round-trip of the JSON model: parsing what `getJSON` emits recovers exactly
the original fields.
-/

theorem string_mk_data (s : String) : String.mk s.data = s := by
  obtain ⟨d⟩ := s
  rfl

theorem digitChar_toNat {d : Nat} (h : d < 10) :
    (Char.ofNat (48 + d)).toNat = 48 + d := by
  interval_cases d <;> decide

theorem digitChar_isDigit {d : Nat} (h : d < 10) :
    (Char.ofNat (48 + d)).isDigit = true := by
  interval_cases d <;> decide

theorem digitChar_sub {d : Nat} (h : d < 10) :
    (Char.ofNat (48 + d)).toNat - 48 = d := by
  rw [digitChar_toNat h]
  omega

theorem natDigitsAux_all_digits :
    ∀ f n c, c ∈ natDigitsAux f n → c.isDigit = true := by
  intro f
  induction f with
  | zero => intro n c hc; simp [natDigitsAux] at hc
  | succ f ih =>
      intro n c hc
      by_cases h10 : n < 10
      · rw [natDigitsAux, if_pos h10] at hc
        rw [List.mem_singleton.mp hc]
        exact digitChar_isDigit h10
      · rw [natDigitsAux, if_neg h10] at hc
        rcases List.mem_append.mp hc with h | h
        · exact ih _ _ h
        · rw [List.mem_singleton.mp h]
          exact digitChar_isDigit (Nat.mod_lt _ (by omega))

theorem natDigits_ne_nil (n : Nat) : natDigits n ≠ [] := by
  rw [natDigits, natDigitsAux]
  split_ifs <;> simp

theorem readDigitsAux_stop (rest : List Char) (m : Nat)
    (h : headNonDigit rest = true) : readDigitsAux rest m = (m, rest) := by
  cases rest with
  | nil => rfl
  | cons c t =>
      rw [headNonDigit] at h
      rw [readDigitsAux, if_neg]
      simp only [Bool.not_eq_true'] at h
      simp [h]

theorem readDigitsAux_digits :
    ∀ f n acc rest, n < f →
      readDigitsAux (natDigitsAux f n ++ rest) acc
        = readDigitsAux rest (acc * 10 ^ (natDigitsAux f n).length + n) := by
  intro f
  induction f with
  | zero => intro n acc rest h; exact absurd h (Nat.not_lt_zero n)
  | succ f ih =>
      intro n acc rest h
      by_cases h10 : n < 10
      · rw [natDigitsAux, if_pos h10]
        rw [List.singleton_append, readDigitsAux, if_pos (digitChar_isDigit h10),
          digitChar_sub h10]
        simp [pow_one]
      · have hlt : n / 10 < f := by
          have h1 : n / 10 < n := Nat.div_lt_self (by omega) (by omega)
          omega
        have hm : n % 10 < 10 := Nat.mod_lt _ (by omega)
        rw [natDigitsAux, if_neg h10, List.append_assoc,
          ih (n / 10) acc ([Char.ofNat (48 + n % 10)] ++ rest) hlt,
          List.singleton_append, readDigitsAux, if_pos (digitChar_isDigit hm),
          digitChar_sub hm]
        congr 1
        rw [List.length_append, List.length_singleton]
        have hdm : n / 10 * 10 + n % 10 = n := by omega
        calc (acc * 10 ^ (natDigitsAux f (n / 10)).length + n / 10) * 10 + n % 10
            = acc * (10 ^ (natDigitsAux f (n / 10)).length * 10)
                + (n / 10 * 10 + n % 10) := by ring
          _ = acc * 10 ^ ((natDigitsAux f (n / 10)).length + 1) + n := by
              rw [hdm, pow_succ]

theorem readDigits_natDigits (n : Nat) (rest : List Char)
    (h : headNonDigit rest = true) :
    readDigits (natDigits n ++ rest) = some (n, rest) := by
  rcases hne : natDigits n with _ | ⟨c, t⟩
  · exact absurd hne (natDigits_ne_nil n)
  · have hcd : c.isDigit = true := by
      refine natDigitsAux_all_digits (n + 1) n c ?_
      rw [show natDigitsAux (n + 1) n = natDigits n from rfl, hne]
      exact List.mem_cons_self c t
    rw [List.cons_append, readDigits, if_pos hcd, ← List.cons_append, ← hne]
    rw [show readDigitsAux (natDigits n ++ rest) 0
        = readDigitsAux rest (0 * 10 ^ (natDigits n).length + n) from
      readDigitsAux_digits (n + 1) n 0 rest (Nat.lt_succ_self n)]
    rw [Nat.zero_mul, Nat.zero_add, readDigitsAux_stop rest n h]

theorem readInt_intChars (v : Int) (rest : List Char)
    (h : headNonDigit rest = true) :
    readInt (intChars v ++ rest) = some (v, rest) := by
  rw [intChars]
  split_ifs with hneg
  · rw [List.cons_append, readInt]
    rw [if_pos (by rw [List.head?_cons])]
    rw [List.tail_cons, readDigits_natDigits _ _ h, Option.some_bind]
    have hv : -((v.natAbs : Nat) : Int) = v := by omega
    rw [hv]
  · rcases hne : natDigits v.natAbs with _ | ⟨c, t⟩
    · exact absurd hne (natDigits_ne_nil _)
    · have hcd : c.isDigit = true := by
        refine natDigitsAux_all_digits (v.natAbs + 1) v.natAbs c ?_
        rw [show natDigitsAux (v.natAbs + 1) v.natAbs = natDigits v.natAbs from rfl, hne]
        exact List.mem_cons_self c t
      have hcm : ¬(c = '-') := by
        intro hc
        rw [hc] at hcd
        exact absurd hcd (by decide)
      rw [List.cons_append, readInt, if_neg (by simp [List.head?_cons, hcm])]
      rw [← List.cons_append, ← hne, readDigits_natDigits _ _ h, Option.some_bind]
      have hv : ((v.natAbs : Nat) : Int) = v := by omega
      rw [hv]

theorem readStrBody_append (key rest : List Char) (h : ∀ c ∈ key, c ≠ '"') :
    readStrBody (key ++ '"' :: rest) = some (key, rest) := by
  induction key with
  | nil => rw [List.nil_append, readStrBody, if_pos rfl]
  | cons c t ih =>
      have hc : ¬(c = '"') := h c (List.mem_cons_self c t)
      rw [List.cons_append, readStrBody, if_neg hc,
        ih fun x hx => h x (List.mem_cons_of_mem c hx)]

theorem parseField_roundtrip (p : String × Int) (rest : List Char)
    (hk : validKey p.1) (hrest : headNonDigit rest = true) :
    parseField (fieldChars p ++ rest) = some (p, rest) := by
  rw [fieldChars, List.cons_append, parseField, expectChar, if_pos rfl,
    Option.some_bind, List.append_assoc, List.cons_append, List.cons_append,
    readStrBody_append _ _ (fun c hc => (hk c hc).1), Option.some_bind,
    expectChar, if_pos rfl, Option.some_bind, readInt_intChars _ _ hrest,
    Option.some_bind, string_mk_data]

theorem fieldsChars_ne_nil (p : String × Int) (tl : List (String × Int)) :
    fieldsChars (p :: tl) ≠ [] := by
  cases tl <;> simp [fieldsChars, fieldChars]

theorem fieldsChars_long :
    ∀ fields : List (String × Int), fields.length ≤ (fieldsChars fields).length := by
  intro fields
  induction fields with
  | nil => simp [fieldsChars]
  | cons p tl ih =>
      rcases tl with _ | ⟨q, t⟩
      · simp [fieldsChars, fieldChars]
      · rw [fieldsChars]
        simp only [List.length_append, List.length_cons]
        have h1 : 1 ≤ (fieldChars p).length := by simp [fieldChars]
        simp only [List.length_cons] at ih ⊢
        omega

theorem parseFieldsAux_roundtrip :
    ∀ (fields : List (String × Int)) (f : Nat) (rest : List Char),
      fields ≠ [] → fields.length ≤ f → (∀ p ∈ fields, validKey p.1) →
      parseFieldsAux f (fieldsChars fields ++ ('}' :: rest))
        = some (fields, '}' :: rest) := by
  intro fields
  induction fields with
  | nil => intro f rest hne; exact absurd rfl hne
  | cons p tl ih =>
      intro f rest _ hlen hkeys
      rcases f with _ | f0
      · simp at hlen
      rcases tl with _ | ⟨q, t⟩
      · rw [fieldsChars, parseFieldsAux,
          parseField_roundtrip p ('}' :: rest) (hkeys p (List.mem_cons_self p []))
            rfl,
          Option.some_bind, if_neg (by simp [List.head?_cons])]
      · rw [fieldsChars, List.append_assoc, List.cons_append,
          parseFieldsAux,
          parseField_roundtrip p (',' :: (fieldsChars (q :: t) ++ ('}' :: rest)))
            (hkeys p (List.mem_cons_self p (q :: t))) rfl,
          Option.some_bind, if_pos (by rw [List.head?_cons]), List.tail_cons,
          ih f0 rest (by simp) (by simp only [List.length_cons] at hlen ⊢; omega)
            (fun x hx => hkeys x (List.mem_cons_of_mem p hx)),
          Option.some_bind]

theorem parseFlat_getJSON (fields : List (String × Int))
    (hk : ∀ p ∈ fields, validKey p.1) :
    parseFlat (getJSON fields) = some fields := by
  rcases fields with _ | ⟨p, tl⟩
  · rfl
  · rw [getJSON, parseFlat]
    rw [if_pos (by rw [show (String.mk ('{' :: (fieldsChars (p :: tl) ++ ['}']))).data
        = '{' :: (fieldsChars (p :: tl) ++ ['}']) from rfl, List.head?_cons])]
    have hdata : (String.mk ('{' :: (fieldsChars (p :: tl) ++ ['}']))).data.tail
        = fieldsChars (p :: tl) ++ ['}'] := rfl
    rw [hdata]
    have hne2 : ¬(fieldsChars (p :: tl) ++ ['}'] = ['}']) := by
      intro hcontra
      have := congrArg List.length hcontra
      simp only [List.length_append, List.length_singleton] at this
      exact absurd (by omega : (fieldsChars (p :: tl)).length = 0)
        (by simpa [List.length_eq_zero] using fieldsChars_ne_nil p tl)
    rw [if_neg hne2]
    have hfuel : (p :: tl).length ≤ (fieldsChars (p :: tl) ++ ['}']).length := by
      have := fieldsChars_long (p :: tl)
      simp only [List.length_append, List.length_singleton]
      omega
    rw [show fieldsChars (p :: tl) ++ ['}'] = fieldsChars (p :: tl) ++ ('}' :: []) from rfl,
      parseFieldsAux_roundtrip (p :: tl) _ [] (by simp) hfuel hk,
      Option.some_bind, if_pos rfl]

/-- Parsing what `getJSON` emits and attaching a prototype yields exactly the
original fields with exactly that prototype. -/
theorem fromJSON_getJSON {π : Type} (proto : π) (fields : List (String × Int))
    (hk : ∀ p ∈ fields, validKey p.1) :
    fromJSON proto (getJSON fields) = some ⟨fields, proto⟩ := by
  rw [fromJSON, parseFlat_getJSON fields hk, Option.map_some']

/-- C8: for every plain flat data object (ordered string-keyed integer
fields, keys needing no JSON escaping), `fromJSON proto (getJSON obj)`
yields an object carrying exactly the fields of `obj` with the shape
template `proto` attached by reference, nothing copied or re-validated; in
particular decoding an encoded height/width object against a prototype with
an `area` method gives an object whose `area()` returns height × width
computed from the decoded fields. -/
theorem c8_json_roundtrip :
    (∀ (π : Type) (proto : π) (fields : List (String × Int)),
      (∀ p ∈ fields, validKey p.1) →
      fromJSON proto (getJSON fields) = some ⟨fields, proto⟩) ∧
    (∀ h w : Int,
      (fromJSON protoWithArea (getJSON [("height", h), ("width", w)])).map
          (fun o => o.proto o.fields)
        = some (h * w)) := by
  refine ⟨fun π proto fields hk => fromJSON_getJSON proto fields hk, fun h w => ?_⟩
  have hkeys : ∀ p ∈ [(("height" : String), h), ("width", w)], validKey p.1 := by
    intro p hp
    simp only [List.mem_cons, List.not_mem_nil, or_false] at hp
    rcases hp with rfl | rfl
    · exact (by decide : validKey "height")
    · exact (by decide : validKey "width")
  rw [fromJSON_getJSON protoWithArea [("height", h), ("width", w)] hkeys,
    Option.map_some']
  have hb1 : (("height" : String) == "height") = true := by decide
  have hb2 : (("width" : String) == "height") = false := by decide
  have hb3 : (("width" : String) == "width") = true := by decide
  simp [protoWithArea, getField, List.lookup, hb1, hb2, hb3]

theorem c8_json_roundtrip_witness :
    (∀ p ∈ [(("height" : String), (10 : Int)), ("width", 20)], validKey p.1) ∧
    fromJSON protoWithArea (getJSON [("height", 10), ("width", 20)])
      = some ⟨[("height", 10), ("width", 20)], protoWithArea⟩ :=
  ⟨by decide, c8_json_roundtrip.1 _ protoWithArea _ (by decide)⟩

/-- C1: for every chain of fragment appends on one builder whose kinds have
non-decreasing ranks and no adjacent repeat of a singleton kind, no append
throws and `stringify()` returns exactly the concatenation, in append order
and with no separators, of the fragments' rendered forms (`element v ↦ v`,
`id v ↦ #v`, `class v ↦ .v`, `attr v ↦ [v]`, `pseudoClass v ↦ :v`,
`pseudoElement v ↦ ::v`, as `renderFrag` states). -/
theorem c1_stringify_concat (l : List (Kind × String))
    (h1 : List.Chain' rankLe (l.map Prod.fst))
    (h2 : List.Chain' noAdjSingleton (l.map Prod.fst)) :
    (runChain SelectorBuilder.new l).2 = none ∧
    (runChain SelectorBuilder.new l).1.stringify = renderAll l := by
  have hch : List.Chain' stepOK (SelectorBuilder.new.usedSelectors ++ l.map Prod.fst) := by
    show List.Chain' stepOK ([] ++ l.map Prod.fst)
    rw [List.nil_append]
    exact chain'_and h1 h2
  rw [runChain_ok l SelectorBuilder.new hch]
  exact ⟨rfl, by simp [SelectorBuilder.new, SelectorBuilder.stringify, String.empty_append]⟩

theorem c1_stringify_concat_witness :
    List.Chain' rankLe
      ([((Kind.el : Kind), "a"), (Kind.attr, "href"), (Kind.pseudoClass, "focus")].map Prod.fst) ∧
    List.Chain' noAdjSingleton
      ([((Kind.el : Kind), "a"), (Kind.attr, "href"), (Kind.pseudoClass, "focus")].map Prod.fst) ∧
    ((runChain SelectorBuilder.new
        [(Kind.el, "a"), (Kind.attr, "href"), (Kind.pseudoClass, "focus")]).2 = none ∧
      (runChain SelectorBuilder.new
        [(Kind.el, "a"), (Kind.attr, "href"), (Kind.pseudoClass, "focus")]).1.stringify =
        renderAll [(Kind.el, "a"), (Kind.attr, "href"), (Kind.pseudoClass, "focus")]) :=
  ⟨by decide, by decide, c1_stringify_concat _ (by decide) (by decide)⟩

/-- C2: `combine(A, c, B)` yields a selector whose `stringify()` is A's
rendered string, a space, the uninterpreted combinator string, a space, and
B's rendered string; in particular the `div#main + table#data` example. -/
theorem c2_combine_renders :
    (∀ (w : FacadeState) (A B : SelectorBuilder) (c : String),
      stringifySel (combine w (.builder A) c (.builder B)).2
          (combine w (.builder A) c (.builder B)).1
        = some (A.stringify ++ " " ++ c ++ " " ++ B.stringify)) ∧
    stringifySel
        (combine FacadeState.init
          (.builder (runChain SelectorBuilder.new [(.el, "div"), (.id, "main")]).1) "+"
          (.builder (runChain SelectorBuilder.new [(.el, "table"), (.id, "data")]).1)).2
        (combine FacadeState.init
          (.builder (runChain SelectorBuilder.new [(.el, "div"), (.id, "main")]).1) "+"
          (.builder (runChain SelectorBuilder.new [(.el, "table"), (.id, "data")]).1)).1
      = some "div#main + table#data" :=
  ⟨fun _ _ _ _ => rfl, by decide⟩

/-- C3 as stated is false: the singleton error message differs from the
claimed one, and appending `id`, then `class`, then `id` again DOES throw
(the ordering error), contrary to the claim. -/
theorem c3_counterexample :
    ((SelectorBuilder.new.id "a").1.id "b").2 = some error1 ∧
    error1 ≠ "element, id and pseudo-element should not occur more than once" ∧
    (runChain SelectorBuilder.new [(.id, "a"), (.«class», "b"), (.id, "c")]).2
      = some error2 := by
  decide

/-- C3 (amended): a fragment append throws the singleton-violation error
`error1` exactly when the appended kind equals the immediately preceding one
and is a one-time kind, the message being the source's `error1` string;
appending `id` twice consecutively throws it, while `id`, `class`, `id`
does not throw the singleton error but the ordering error `error2`. -/
theorem c3_singleton_error_amended :
    (∀ (b : SelectorBuilder) (k : Kind) (v : String),
      (appendFragment b k v).2 = some error1 ↔
        (b.lastSel = some k ∧ k ∈ oneTimeSelectors)) ∧
    ((SelectorBuilder.new.id "a").1.id "b").2 = some error1 ∧
    (runChain SelectorBuilder.new [(.id, "a"), (.«class», "b"), (.id, "c")]).2
      = some error2 := by
  refine ⟨fun b k v => ?_, by decide, by decide⟩
  rw [appendFragment_eq]
  split_ifs with hc1 hc2
  · simpa using hc1
  · exact ⟨fun hh => absurd (Option.some.inj hh) (by decide), fun hh => absurd hh hc1⟩
  · simp [hc1]

/-- C4: after any sequence of throw-free appends from a fresh builder, the
recorded kind sequence is non-decreasing by rank and contains each one-time
(singleton) kind at most once, even non-adjacently. -/
theorem c4_invariant (l : List (Kind × String))
    (h : (runChain SelectorBuilder.new l).2 = none) :
    List.Pairwise rankLe (runChain SelectorBuilder.new l).1.usedSelectors ∧
    ∀ k ∈ oneTimeSelectors,
      ((runChain SelectorBuilder.new l).1.usedSelectors).count k ≤ 1 := by
  have hch : List.Chain' stepOK (runChain SelectorBuilder.new l).1.usedSelectors :=
    runChain_inv l SelectorBuilder.new (by simp [SelectorBuilder.new]) h
  exact ⟨chain'_stepOK_pairwise hch,
    count_singleton_le_one _ (chain'_stepOK_pairwise hch) hch⟩

theorem c4_invariant_witness :
    (runChain SelectorBuilder.new [((Kind.el : Kind), "a"), (Kind.id, "b")]).2 = none ∧
    (List.Pairwise rankLe
        (runChain SelectorBuilder.new [((Kind.el : Kind), "a"), (Kind.id, "b")]).1.usedSelectors ∧
      ∀ k ∈ oneTimeSelectors,
        ((runChain SelectorBuilder.new
          [((Kind.el : Kind), "a"), (Kind.id, "b")]).1.usedSelectors).count k ≤ 1) :=
  ⟨by decide, c4_invariant _ (by decide)⟩

/-- C5 as stated is false on the message only: `class` then `element` does
throw the ordering error, but its message is the source's `error2` string,
not the one the claim quotes. -/
theorem c5_counterexample :
    (runChain SelectorBuilder.new [(.«class», "a"), (.el, "b")]).2 = some error2 ∧
    error2 ≠
      "selector parts must follow order: element, id, class, attribute, pseudo-class, pseudo-element" := by
  decide

/-- C5 (amended): a fragment append throws the ordering-violation error
`error2` exactly when the rank of the immediately preceding appended kind is
strictly greater than the rank of the appended kind, the message being the
source's `error2` string; in particular `class` then `element` throws it. -/
theorem c5_ordering_error_amended :
    (∀ (b : SelectorBuilder) (k : Kind) (v : String),
      (appendFragment b k v).2 = some error2 ↔
        idxOpt b.lastSel > idxOpt (some k)) ∧
    (runChain SelectorBuilder.new [(.«class», "a"), (.el, "b")]).2 = some error2 := by
  refine ⟨fun b k v => ?_, by decide⟩
  rw [appendFragment_eq]
  split_ifs with hc1 hc2
  · constructor
    · intro hh; exact absurd (Option.some.inj hh) (by decide)
    · intro hh; rw [hc1.1] at hh; exact absurd hh (lt_irrefl _)
  · simp [hc2]
  · simp [hc2]

/-- C6 as stated is false: the selector returned by a first `combine` call
has its `stringify()` result changed by a second, unrelated `combine` call,
because `combine` mutates and returns the shared facade object. -/
theorem c6_counterexample :
    stringifySel
        (combine FacadeState.init (.builder (cssElement "a").1) "+"
          (.builder (cssElement "b").1)).2
        (combine FacadeState.init (.builder (cssElement "a").1) "+"
          (.builder (cssElement "b").1)).1 = some "a + b" ∧
    stringifySel
        (combine
          (combine FacadeState.init (.builder (cssElement "a").1) "+"
            (.builder (cssElement "b").1)).2
          (.builder (cssElement "c").1) "~" (.builder (cssElement "d").1)).2
        (combine FacadeState.init (.builder (cssElement "a").1) "+"
          (.builder (cssElement "b").1)).1 = some "c ~ d" ∧
    ("c ~ d" : String) ≠ "a + b" := by
  decide

/-- C6 (amended): `combine` returns the shared facade object after writing
its `str` to the combined rendering; builder selectors made by the fragment
entry points are unaffected by `combine`, but the selector an earlier
`combine` returned is the facade itself, so after a second `combine` its
`stringify()` yields the second combination. -/
theorem c6_combine_amended :
    (∀ (w : FacadeState) (s1 : Sel) (c : String) (s2 : Sel),
      (combine w s1 c s2).1 = Sel.facade ∧
      (combine w s1 c s2).2.str
        = some (selStr w s1 ++ " " ++ c ++ " " ++ selStr w s2)) ∧
    (∀ (w : FacadeState) (s1 : Sel) (c : String) (s2 : Sel) (b : SelectorBuilder),
      stringifySel (combine w s1 c s2).2 (.builder b)
        = stringifySel w (.builder b)) ∧
    (∀ (w : FacadeState) (s1 : Sel) (c : String) (s2 : Sel)
        (t1 : Sel) (c2 : String) (t2 : Sel),
      stringifySel (combine (combine w s1 c s2).2 t1 c2 t2).2 (combine w s1 c s2).1
        = some (selStr (combine w s1 c s2).2 t1 ++ " " ++ c2 ++ " "
            ++ selStr (combine w s1 c s2).2 t2)) :=
  ⟨fun _ _ _ _ => ⟨rfl, rfl⟩, fun _ _ _ _ _ => rfl, fun _ _ _ _ _ _ _ => rfl⟩

/-- C7: the rectangle constructor exposes both fields and a `getArea`
accessor computing width × height on each access, so mutating `width`
afterwards changes the result: `makeRectangle(10, 20).getArea() = 200`, and
after setting `width := 5`, `getArea() = 100`. -/
theorem c7_rectangle :
    (∀ w h : Int, (Rectangle.mk w h).width = w ∧ (Rectangle.mk w h).height = h ∧
      (Rectangle.mk w h).getArea = w * h ∧
      ∀ w2 : Int, ({ Rectangle.mk w h with width := w2 }).getArea = w2 * h) ∧
    (Rectangle.mk 10 20).getArea = 200 ∧
    ({ Rectangle.mk 10 20 with width := 5 }).getArea = 100 :=
  ⟨fun _ _ => ⟨rfl, rfl, rfl, fun _ => rfl⟩, by decide, by decide⟩

/-- C9: a fragment append that throws leaves the builder exactly as it was:
same state, same `stringify()` string, same recorded kinds — `process`
throws before pushing, and the string append only runs after `process`
returns. -/
theorem c9_append_atomic (b : SelectorBuilder) (k : Kind) (v : String)
    (e : String) (h : (appendFragment b k v).2 = some e) :
    (appendFragment b k v).1 = b ∧
    (appendFragment b k v).1.stringify = b.stringify ∧
    (appendFragment b k v).1.usedSelectors = b.usedSelectors := by
  rw [appendFragment_eq] at h ⊢
  split_ifs at h ⊢ <;> simp_all [SelectorBuilder.stringify]

theorem c9_append_atomic_witness :
    (appendFragment (cssClass "x").1 Kind.el "d").2 = some error2 ∧
    ((appendFragment (cssClass "x").1 Kind.el "d").1 = (cssClass "x").1 ∧
      (appendFragment (cssClass "x").1 Kind.el "d").1.stringify
        = (cssClass "x").1.stringify ∧
      (appendFragment (cssClass "x").1 Kind.el "d").1.usedSelectors
        = (cssClass "x").1.usedSelectors) :=
  ⟨by decide, c9_append_atomic _ _ _ error2 (by decide)⟩

theorem appendFresh_none (k : Kind) (v : String) :
    (appendFragment SelectorBuilder.new k v).2 = none := by
  have hc1 : ¬(SelectorBuilder.new.lastSel = some k ∧ k ∈ oneTimeSelectors) := by
    rintro ⟨h, -⟩
    simp [SelectorBuilder.new, SelectorBuilder.lastSel] at h
  have hc2 : ¬(idxOpt SelectorBuilder.new.lastSel > idxOpt (some k)) := by
    have h0 : idxOpt SelectorBuilder.new.lastSel = -1 := rfl
    have h1 : (0 : Int) ≤ idxOpt (some k) := by
      rw [idxOpt_some]; exact Int.natCast_nonneg _
    omega
  rw [appendFragment_eq, if_neg hc1, if_neg hc2]

/-- C10: with an empty kind history neither validation rule can fire, so the
first fragment append on a fresh builder — what every facade entry point
performs — never throws, for every kind and every value. -/
theorem c10_first_append_safe (k : Kind) (v : String) :
    (appendFragment SelectorBuilder.new k v).2 = none ∧
    (cssElement v).2 = none ∧ (cssId v).2 = none ∧ (cssClass v).2 = none ∧
    (cssAttr v).2 = none ∧ (cssPseudoClass v).2 = none ∧
    (cssPseudoElement v).2 = none :=
  ⟨appendFresh_none k v, appendFresh_none .el v, appendFresh_none .id v,
    appendFresh_none .«class» v, appendFresh_none .attr v,
    appendFresh_none .pseudoClass v, appendFresh_none .pseudoEl v⟩

end CoreJs
